import Mathlib

/-!
Verification development for the CSV-driven image thumbnail batch processor.

The source program (a TypeScript `ImageProcessor` class plus top-level process
wiring) is shallowly embedded below.  Strings are modelled through their
character lists; the external world (HTTP fetch, document store, wall clock) is
modelled by an explicit event oracle, so that every behaviour of the code under
any sequence of external outcomes is captured by a pure function.
-/

/-- ASCII whitespace as relevant to the inputs handled here (models the
whitespace classes used by JavaScript `trim` and `parseInt` on such data). -/
def isJsWs (c : Char) : Bool := c = ' ' || c = '\t' || c = '\n' || c = '\r'

/-- Drop leading and trailing whitespace from a character list. -/
def trimChars (cs : List Char) : List Char :=
  ((cs.dropWhile isJsWs).reverse.dropWhile isJsWs).reverse

/-- Model of JavaScript `String.prototype.trim`. -/
def jsTrim (s : String) : String := String.mk (trimChars s.toList)

/-- Split a character list on a single separator character.  Matches
JavaScript `split`: the empty input yields one empty field. -/
def splitOnCharList (sep : Char) : List Char → List (List Char)
  | [] => [[]]
  | c :: rest =>
    if c = sep then [] :: splitOnCharList sep rest
    else
      match splitOnCharList sep rest with
      | [] => [[c]]
      | h :: t => (c :: h) :: t

/-- Model of JavaScript `String.prototype.split` with a one-character
separator. -/
def jsSplit (sep : Char) (s : String) : List String :=
  (splitOnCharList sep s.toList).map String.mk

/-- Lower-case an ASCII letter (model of `toLowerCase` on the header names
occurring here). -/
def lowerChar (c : Char) : Char :=
  if 'A' ≤ c ∧ c ≤ 'Z' then Char.ofNat (c.toNat + 32) else c

/-- Model of JavaScript `String.prototype.toLowerCase` (ASCII). -/
def jsToLower (s : String) : String := String.mk (s.toList.map lowerChar)

/-- The numeric value of the longest digit run at the front of a character
list; `none` when there is no leading digit. -/
def leadingDigits (cs : List Char) : Option Nat :=
  let ds := cs.takeWhile Char.isDigit
  if ds.isEmpty then none
  else some (ds.foldl (fun n c => n * 10 + (c.toNat - 48)) 0)

/-- Model of JavaScript `parseInt(s, 10)`: skip leading whitespace, read an
optional sign and then a maximal run of decimal digits, ignoring any trailing
characters.  `none` models the `NaN` result. -/
def jsParseInt (s : String) : Option Int :=
  match s.toList.dropWhile isJsWs with
  | '-' :: rest => (leadingDigits rest).map (fun n => -(n : Int))
  | '+' :: rest => (leadingDigits rest).map (fun n => (n : Int))
  | cs => (leadingDigits cs).map (fun n => (n : Int))

/-- Scheme tail: scheme characters followed by a colon. -/
def schemeColon : List Char → Bool
  | [] => false
  | c :: rest =>
    if c = ':' then true
    else (c.isAlpha || c.isDigit || c = '+' || c = '-' || c = '.') && schemeColon rest

/-- Model of the WHATWG `new URL(url)` constructor succeeding on an absolute
URL, abstracted as: the string starts with an ASCII letter followed by scheme
characters and a colon.  The exact extension of URL validity is irrelevant to
the claims below, which all use this single shared predicate for the notion
of a well-formed absolute URL. -/
def validateUrl (s : String) : Bool :=
  match s.toList with
  | [] => false
  | c :: rest => c.isAlpha && schemeColon rest

/-- A raw CSV row as produced by the row source (all fields still strings,
exactly as in the `CSVRow` TypeScript interface). -/
structure CSVRow where
  id : String
  url : String
  index : String
deriving Repr, DecidableEq

/-- Embedding of `ImageProcessor.validateRow`: all three fields truthy
(non-empty), the index survives `parseInt(·, 10)`, and the url passes the
URL constructor. -/
def validateRow (row : CSVRow) : Bool :=
  row.id != "" && row.url != "" && row.index != "" &&
    (jsParseInt row.index).isSome && validateUrl row.url

/-- Positional header-to-value mapping of one CSV line, embedding the
`headers.reduce` step of `readCSV`: each header assigns the value at its
position (missing values behave as empty), later duplicate headers win, and
unknown headers are ignored (the `CSVRow` shape only keeps id, url, index). -/
def mkRow (headers : List String) (values : List String) : CSVRow :=
  headers.enum.foldl
    (fun acc hi =>
      let v := values.getD hi.1 ""
      if hi.2 == "id" then { acc with id := v }
      else if hi.2 == "url" then { acc with url := v }
      else if hi.2 == "index" then { acc with index := v }
      else acc)
    { id := "", url := "", index := "" }

/-- Header parsing of `readCSV`: comma-split, trim, lower-case. -/
def parseHeaders (line : String) : List String :=
  (jsSplit ',' line).map (fun h => jsToLower (jsTrim h))

/-- Value parsing of `readCSV`: comma-split, trim. -/
def parseValues (line : String) : List String :=
  (jsSplit ',' line).map jsTrim

/-- The mapped (not yet validated) rows of the CSV body: every non-blank line
after the header, positionally mapped against the header names. -/
def csvBodyRows (data : String) : List CSVRow :=
  match (jsSplit '\n' data).filter (fun r => jsTrim r != "") with
  | [] => []
  | headersLine :: body =>
    body.map (fun row => mkRow (parseHeaders headersLine) (parseValues row))

/-- Embedding of `ImageProcessor.readCSV` (file access aside): split into
non-blank lines, take the first as the header, require the id/url/index
columns, map the remaining lines positionally, and keep only rows passing
`validateRow`. -/
def readCSV (data : String) : Except String (List CSVRow) :=
  match (jsSplit '\n' data).filter (fun r => jsTrim r != "") with
  | [] => Except.error "CSV file is empty or has no headers"
  | headersLine :: _ =>
    let headers := parseHeaders headersLine
    if headers.contains "id" && headers.contains "url" && headers.contains "index" then
      Except.ok ((csvBodyRows data).filter validateRow)
    else Except.error "Invalid CSV structure: missing required headers"

/-- A stored image record (`images` collection): index plus thumbnail bytes.
`index : Option Int` is the image of JavaScript `parseInt`, `none` standing
for `NaN`. -/
structure ImageRecord where
  index : Option Int
  thumbnail : List Nat
deriving Repr, DecidableEq

/-- A failure-ledger record (`failed_images` collection), as in the
`FailedImageSchema`. -/
structure FailedRecord where
  index : Option Int
  url : String
  error : String
  attempts : Nat
  lastAttempt : Nat
deriving Repr, DecidableEq

/-- The document store: both collections, as association lists keyed by id
(the unique index on `id` makes the key the identity of a document). -/
structure Store where
  images : List (String × ImageRecord)
  failed : List (String × FailedRecord)
deriving Repr, DecidableEq

/-- Keyed lookup in a collection. -/
def lookupA {α : Type} (k : String) : List (String × α) → Option α
  | [] => none
  | (k', v) :: rest => if k' = k then some v else lookupA k rest

/-- Keyed upsert: overwrite the document in place when the key is present,
append a new document otherwise. -/
def upsertA {α : Type} (k : String) (v : α) : List (String × α) → List (String × α)
  | [] => [(k, v)]
  | (k', v') :: rest => if k' = k then (k, v) :: rest else (k', v') :: upsertA k v rest

/-- Keyed delete of (at most) one document, as `deleteOne`. -/
def eraseA {α : Type} (k : String) : List (String × α) → List (String × α)
  | [] => []
  | (k', v') :: rest => if k' = k then rest else (k', v') :: eraseA k rest

/-- External outcomes for processing one row: whether each external operation
of the row's try-block (image lookup, thumbnail fetch-and-resize, image
write, ledger delete) succeeds, and the wall-clock instant used for
`lastAttempt` should the row fail.  `findErr`, `writeErr`, `deleteErr` are
store-connectivity failures; `fetchRes` is the thumbnail pipeline outcome. -/
structure RowEvents where
  findErr : Option String
  fetchRes : Except String (List Nat)
  writeErr : Option String
  deleteErr : Option String
  time : Nat

/-- The error message wrapper of `processThumbnail`. -/
def thumbErrMsg (id msg : String) : String :=
  "Failed to process thumbnail for ID " ++ id ++ ": " ++ msg

/-- The error thrown out of a row's try-block, if any, following the order of
operations in `processChunk`: lookup, fetch (with the wrapped message),
image write, ledger delete.  `none` means the row succeeds. -/
def rowErr (r : CSVRow) (ev : RowEvents) : Option String :=
  match ev.findErr with
  | some m => some m
  | none =>
    match ev.fetchRes with
    | Except.error m => some (thumbErrMsg r.id m)
    | Except.ok _ =>
      match ev.writeErr with
      | some m => some m
      | none => ev.deleteErr

/-- Whether the row's try-block runs to completion. -/
def rowSucceeds (r : CSVRow) (ev : RowEvents) : Bool := (rowErr r ev).isNone

/-- Every stage of the row events succeeds (no external failure at all). -/
def evOk (ev : RowEvents) : Bool :=
  ev.findErr.isNone &&
    (match ev.fetchRes with | Except.ok _ => true | Except.error _ => false) &&
    ev.writeErr.isNone && ev.deleteErr.isNone

/-- Embedding of the catch-block's `FailedImageModel.findOneAndUpdate` with
`upsert: true` and `$inc: {attempts: 1}`: create the record with attempts 1
when absent, otherwise increment attempts while overwriting index, url,
error and lastAttempt. -/
def upsertFailure (s : Store) (r : CSVRow) (msg : String) (t : Nat) : Store :=
  let newAttempts :=
    match lookupA r.id s.failed with
    | none => 1
    | some fr => fr.attempts + 1
  { s with failed := upsertA r.id ⟨jsParseInt r.index, r.url, msg, newAttempts, t⟩ s.failed }

/-- Embedding of one iteration of the row loop in `processChunk`: on a clean
run, upsert the image (the `existingImage` branch split performs exactly a
keyed create-or-overwrite) and delete any ledger entry; on the first failing
operation, fall into the catch-block and upsert the failure ledger.  The
returned flag reports whether `successCount` was incremented. -/
def processRow (s : Store) (r : CSVRow) (ev : RowEvents) : Store × Bool :=
  match ev.findErr with
  | some m => (upsertFailure s r m ev.time, false)
  | none =>
    match ev.fetchRes with
    | Except.error m => (upsertFailure s r (thumbErrMsg r.id m) ev.time, false)
    | Except.ok thumb =>
      match ev.writeErr with
      | some m => (upsertFailure s r m ev.time, false)
      | none =>
        let s1 : Store := { s with images := upsertA r.id ⟨jsParseInt r.index, thumb⟩ s.images }
        match ev.deleteErr with
        | some m => (upsertFailure s1 r m ev.time, false)
        | none => ({ s1 with failed := eraseA r.id s1.failed }, true)

/-- Embedding of `ImageProcessor.processChunk`: process the rows of a chunk
in order, threading the store, and return the store together with
`successCount`.  The oracle `o` supplies the external outcomes for the row
at each global position. -/
def processChunk (o : Nat → RowEvents) : Store → Nat → List CSVRow → Store × Nat
  | s, _, [] => (s, 0)
  | s, pos, r :: rs =>
    let p := processRow s r (o pos)
    let q := processChunk o p.1 (pos + 1) rs
    (q.1, (if p.2 then 1 else 0) + q.2)

/-- The number of rows whose events make the row succeed, position-indexed;
this is the oracle-level meaning of `successCount`. -/
def succRowCount (o : Nat → RowEvents) : Nat → List CSVRow → Nat
  | _, [] => 0
  | pos, r :: rs => (if rowSucceeds r (o pos) then 1 else 0) + succRowCount o (pos + 1) rs

/-- Fuel-driven worker for chunking (the fuel is an upper bound on the input
length, consumed at least one element per step). -/
def chunkGo {α : Type} (n : Nat) : Nat → List α → List (List α)
  | _, [] => []
  | 0, _ :: _ => []
  | fuel + 1, x :: xs => ((x :: xs).take n) :: chunkGo n fuel ((x :: xs).drop n)

/-- Model of lodash `_.chunk(xs, n)`: consecutive slices of length `n` (the
last possibly shorter); a non-positive size yields no chunks. -/
def chunkList {α : Type} (n : Nat) (xs : List α) : List (List α) :=
  if n = 0 then [] else chunkGo n xs.length xs

/-- One per-chunk progress notification, as logged by `processImages`:
one-based batch number, total batch count, cumulative processed and failed
counts. -/
structure Progress where
  batch : Nat
  totalBatches : Nat
  processed : Nat
  failed : Nat
deriving Repr, DecidableEq

/-- The chunk loop of `processImages`: process each chunk, accumulate
`processedCount` and `failedCount` (the latter by `chunk.length -
successCount`), and emit one progress notification per chunk. -/
def runChunks (o : Nat → RowEvents) (totalBatches : Nat) :
    Store → Nat → Nat → Nat → Nat → List (List CSVRow) → Store × Nat × Nat × List Progress
  | s, _, _, p, f, [] => (s, p, f, [])
  | s, pos, b, p, f, c :: cs =>
    let r := processChunk o s pos c
    let p' := p + r.2
    let f' := f + (c.length - r.2)
    let rest := runChunks o totalBatches r.1 (pos + c.length) (b + 1) p' f' cs
    (rest.1, rest.2.1, rest.2.2.1, ⟨b + 1, totalBatches, p', f'⟩ :: rest.2.2.2)

/-- The final result record of a pass. -/
structure ProcessingResult where
  total : Nat
  processed : Nat
  failed : Nat
deriving Repr, DecidableEq

/-- Embedding of `ImageProcessor.processImages`: chunk the rows, run the
chunk loop, and report `{total: rows.length, processed, failed}` together
with the emitted progress notifications. -/
def processImages (batchSize : Nat) (o : Nat → RowEvents) (s : Store) (rows : List CSVRow) :
    Store × ProcessingResult × List Progress :=
  let chunks := chunkList batchSize rows
  let r := runChunks o chunks.length s 0 0 0 0 chunks
  (r.1, ⟨rows.length, r.2.1, r.2.2.1⟩, r.2.2.2)

/-- `item.index.toString()` on a stored number; `NaN` prints as "NaN". -/
def optIntToString : Option Int → String
  | none => "NaN"
  | some i => toString i

/-- Embedding of `ImageProcessor.retryFailed`: select the ledger records with
attempts below the threshold; when none qualify return a zero result without
touching the store, otherwise reconstitute input rows and delegate to
`processImages`. -/
def retryFailed (maxAttempts : Nat) (batchSize : Nat) (o : Nat → RowEvents) (s : Store) :
    Store × ProcessingResult × List Progress :=
  let failedImages := s.failed.filter (fun p => decide (p.2.attempts < maxAttempts))
  if failedImages.isEmpty then (s, ⟨0, 0, 0⟩, [])
  else
    processImages batchSize o s
      (failedImages.map (fun p => ⟨p.1, p.2.url, optIntToString p.2.index⟩))

/-- The failure-ledger key list has no duplicates — the well-formedness
guaranteed by the unique index on `id` in the `FailedImageSchema`. -/
def wfFailed (s : Store) : Prop := (s.failed.map Prod.fst).Nodup

/-- An observable action of the top-level process wiring. -/
inductive ProcAction where
  | logError (msg : String)
  | cleanup
deriving Repr, DecidableEq

/-- Process state of the top-level wiring: the actions performed so far and
the exit code once `process.exit` has been called. -/
structure ProcState where
  trace : List ProcAction
  exitCode : Option Nat
deriving Repr, DecidableEq

/-- Perform an action — unless the process has already exited, in which case
nothing further runs. -/
def runAct (s : ProcState) (a : ProcAction) : ProcState :=
  if s.exitCode.isSome then s else { s with trace := s.trace ++ [a] }

/-- `process.exit(c)`: record the exit code and terminate; every continuation
scheduled after it (including pending promise callbacks) never runs. -/
def processExit (s : ProcState) (c : Nat) : ProcState :=
  if s.exitCode.isSome then s else { s with exitCode := some c }

/-- Embedding of the top-level wiring `main().catch(...).finally(...)`: on a
rejected `main()` the catch handler logs the error and calls
`process.exit(1)`; afterwards the finally callback — run only if the process
is still alive — performs `processor.cleanup()` and then `process.exit(0)`.
Under Node semantics `process.exit` terminates immediately, so a call to it
in the catch handler prevents the finally callback from ever running. -/
def topLevel (mainResult : Except String ProcessingResult) : ProcState :=
  let s0 : ProcState := ⟨[], none⟩
  let s1 :=
    match mainResult with
    | Except.error e => processExit (runAct s0 (ProcAction.logError e)) 1
    | Except.ok _ => s0
  processExit (runAct s1 ProcAction.cleanup) 0

/-- Modelled from the spec: "index parses as a base-10 integer" read as the
whole string being a base-10 integer numeral (an optional sign followed by
one or more decimal digits).  This follows the spec's words, for comparison
with the code's `validateRow`; the code itself is embedded above. -/
def isBase10Integer (s : String) : Bool :=
  match s.toList with
  | [] => false
  | '-' :: rest => !rest.isEmpty && rest.all Char.isDigit
  | '+' :: rest => !rest.isEmpty && rest.all Char.isDigit
  | cs => cs.all Char.isDigit

/-- Fully successful row events (fetch yields the one-byte thumbnail `[1]`). -/
def okEv : RowEvents := ⟨none, Except.ok [1], none, none, 0⟩

/-- Row events whose thumbnail fetch fails with message "boom" at time 7. -/
def failEv : RowEvents := ⟨none, Except.error "boom", none, none, 7⟩

/-- The empty store (both collections empty). -/
def emptyStore : Store := ⟨[], []⟩

/-- A concrete valid input row. -/
def rowX : CSVRow := ⟨"X", "http://x", "1"⟩

/-- A second concrete valid input row with a different id. -/
def rowY : CSVRow := ⟨"Y", "http://y", "2"⟩

/-- The store state reached by one pass over two rows with the same id "X"
where the first occurrence succeeds and the second fails its fetch. -/
def dupIdStore : Store :=
  (processImages 50 (fun i => if i = 0 then okEv else failEv) emptyStore [rowX, rowX]).1

/-- A CSV input whose single body row carries the index field "3x". -/
def csvData3x : String := "id,url,index\nA,http://x,3x"

/-- The single row of `csvData3x`. -/
def row3x : CSVRow := ⟨"A", "http://x", "3x"⟩

/-- A store holding one ledger record that has reached three attempts. -/
def storeAt3 : Store :=
  ⟨[], [("Z", ⟨some 4, "http://z", "old error", 3, 11⟩)]⟩


/-- An oracle under which every row succeeds. -/
def okOracle : Nat → RowEvents := fun _ => okEv

/-- An oracle under which the row at position 0 succeeds and every later row
fails its fetch. -/
def mixedOracle : Nat → RowEvents := fun i => if i = 0 then okEv else failEv

/-- The single ledger document of `storeAt3`. -/
def pZ : String × FailedRecord := ("Z", ⟨some 4, "http://z", "old error", 3, 11⟩)

/-- The thumbnail bytes delivered by the fetch stage (meaningful when the
fetch succeeded). -/
def thumbOf (ev : RowEvents) : List Nat :=
  match ev.fetchRes with
  | Except.ok t => t
  | Except.error _ => []

/-- The image-record value written for `key` by the last row bearing that id
in a fully successful pass whose first row sits at oracle position `pos`;
`none` when no row bears the id. -/
def lastVal (o : Nat → RowEvents) (key : String) : Nat → List CSVRow → Option ImageRecord
  | _, [] => none
  | pos, r :: rs =>
    match lastVal o key (pos + 1) rs with
    | some v => some v
    | none => if r.id = key then some ⟨jsParseInt r.index, thumbOf (o pos)⟩ else none

/-! ### Association-list lemmas -/

theorem lookupA_upsertA_self {α : Type} (k : String) (v : α) (l : List (String × α)) :
    lookupA k (upsertA k v l) = some v := by
  induction l with
  | nil => simp [upsertA, lookupA]
  | cons hd t ih =>
    obtain ⟨k₀, v₀⟩ := hd
    by_cases hk : k₀ = k
    · simp [upsertA, lookupA, hk]
    · simp [upsertA, lookupA, hk, ih]

theorem lookupA_upsertA_ne {α : Type} (k k' : String) (v : α) (l : List (String × α))
    (h : k' ≠ k) : lookupA k' (upsertA k v l) = lookupA k' l := by
  induction l with
  | nil => simp [upsertA, lookupA, Ne.symm h]
  | cons hd t ih =>
    obtain ⟨k₀, v₀⟩ := hd
    by_cases hk : k₀ = k
    · subst hk
      simp [upsertA, lookupA, Ne.symm h]
    · simp [upsertA, lookupA, hk, ih]

theorem lookupA_eraseA_ne {α : Type} (k k' : String) (l : List (String × α))
    (h : k' ≠ k) : lookupA k' (eraseA k l) = lookupA k' l := by
  induction l with
  | nil => simp [eraseA]
  | cons hd t ih =>
    obtain ⟨k₀, v₀⟩ := hd
    by_cases hk : k₀ = k
    · subst hk
      simp [eraseA, lookupA, Ne.symm h]
    · simp [eraseA, lookupA, hk, ih]

theorem eraseA_of_lookupA_none {α : Type} (k : String) (l : List (String × α))
    (h : lookupA k l = none) : eraseA k l = l := by
  induction l with
  | nil => simp [eraseA]
  | cons hd t ih =>
    obtain ⟨k₀, v₀⟩ := hd
    by_cases hk : k₀ = k
    · simp [lookupA, hk] at h
    · simp [lookupA, hk] at h
      simp [eraseA, hk, ih h]

theorem lookupA_eq_none {α : Type} (k : String) (l : List (String × α)) :
    lookupA k l = none ↔ k ∉ l.map Prod.fst := by
  induction l with
  | nil => simp [lookupA]
  | cons hd t ih =>
    obtain ⟨k₀, v₀⟩ := hd
    by_cases hk : k₀ = k
    · simp [lookupA, hk]
    · simp [lookupA, hk, ih, Ne.symm hk]

theorem lookupA_eraseA_self {α : Type} (k : String) (l : List (String × α))
    (h : (l.map Prod.fst).Nodup) : lookupA k (eraseA k l) = none := by
  induction l with
  | nil => simp [eraseA, lookupA]
  | cons hd t ih =>
    obtain ⟨k₀, v₀⟩ := hd
    simp only [List.map_cons, List.nodup_cons] at h
    by_cases hk : k₀ = k
    · subst hk
      simp only [eraseA, if_pos rfl]
      exact (lookupA_eq_none k₀ t).2 h.1
    · simp [eraseA, hk, lookupA, ih h.2]

theorem upsertA_map_fst_of_mem {α : Type} (k : String) (v : α) (l : List (String × α))
    (h : k ∈ l.map Prod.fst) : (upsertA k v l).map Prod.fst = l.map Prod.fst := by
  induction l with
  | nil => simp at h
  | cons hd t ih =>
    obtain ⟨k₀, v₀⟩ := hd
    by_cases hk : k₀ = k
    · simp [upsertA, hk]
    · have hmem : k ∈ t.map Prod.fst := by
        rcases List.mem_cons.1 (by simpa only [List.map_cons] using h) with h1 | h1
        · exact absurd h1.symm hk
        · exact h1
      simp [upsertA, hk, ih hmem]

theorem upsertA_map_fst_of_not_mem {α : Type} (k : String) (v : α) (l : List (String × α))
    (h : k ∉ l.map Prod.fst) : (upsertA k v l).map Prod.fst = l.map Prod.fst ++ [k] := by
  induction l with
  | nil => simp [upsertA]
  | cons hd t ih =>
    obtain ⟨k₀, v₀⟩ := hd
    simp only [List.map_cons, List.mem_cons] at h
    push_neg at h
    by_cases hk : k₀ = k
    · exact absurd hk.symm h.1
    · simp [upsertA, hk, ih h.2]

theorem nodup_upsertA {α : Type} (k : String) (v : α) (l : List (String × α))
    (h : (l.map Prod.fst).Nodup) : ((upsertA k v l).map Prod.fst).Nodup := by
  by_cases hmem : k ∈ l.map Prod.fst
  · rw [upsertA_map_fst_of_mem k v l hmem]
    exact h
  · rw [upsertA_map_fst_of_not_mem k v l hmem]
    simp [List.nodup_append, h, hmem]

theorem eraseA_sublist {α : Type} (k : String) (l : List (String × α)) :
    (eraseA k l).Sublist l := by
  induction l with
  | nil => simp [eraseA]
  | cons hd t ih =>
    obtain ⟨k₀, v₀⟩ := hd
    by_cases hk : k₀ = k
    · simp only [eraseA, if_pos hk]
      exact List.sublist_cons_self (k₀, v₀) t
    · simpa [eraseA, hk] using ih.cons₂ (k₀, v₀)

theorem nodup_eraseA {α : Type} (k : String) (l : List (String × α))
    (h : (l.map Prod.fst).Nodup) : ((eraseA k l).map Prod.fst).Nodup :=
  h.sublist ((eraseA_sublist k l).map Prod.fst)

theorem lookupA_none_of_sublist {α : Type} (k : String) {l₁ l₂ : List (String × α)}
    (hs : l₁.Sublist l₂) (h : lookupA k l₂ = none) : lookupA k l₁ = none := by
  rw [lookupA_eq_none] at h ⊢
  exact fun hm => h ((hs.map Prod.fst).mem hm)

theorem lookupA_eraseA_none {α : Type} (k k' : String) (l : List (String × α))
    (h : lookupA k l = none) : lookupA k (eraseA k' l) = none :=
  lookupA_none_of_sublist k (eraseA_sublist k' l) h

/-! ### Failure-ledger upsert lemmas -/

theorem upsertFailure_images (s : Store) (r : CSVRow) (m : String) (t : Nat) :
    (upsertFailure s r m t).images = s.images := by
  unfold upsertFailure
  cases lookupA r.id s.failed <;> rfl

theorem upsertFailure_lookup_of_none (s : Store) (r : CSVRow) (m : String) (t : Nat)
    (h : lookupA r.id s.failed = none) :
    lookupA r.id (upsertFailure s r m t).failed =
      some ⟨jsParseInt r.index, r.url, m, 1, t⟩ := by
  unfold upsertFailure
  rw [h]
  exact lookupA_upsertA_self _ _ _

theorem upsertFailure_lookup_of_some (s : Store) (r : CSVRow) (m : String) (t : Nat)
    (fr : FailedRecord) (h : lookupA r.id s.failed = some fr) :
    lookupA r.id (upsertFailure s r m t).failed =
      some ⟨jsParseInt r.index, r.url, m, fr.attempts + 1, t⟩ := by
  unfold upsertFailure
  rw [h]
  exact lookupA_upsertA_self _ _ _

theorem upsertFailure_lookup_self (s : Store) (r : CSVRow) (m : String) (t : Nat) :
    ∃ fr : FailedRecord, lookupA r.id (upsertFailure s r m t).failed = some fr ∧
      1 ≤ fr.attempts ∧ fr.error = m := by
  cases h : lookupA r.id s.failed with
  | none => exact ⟨_, upsertFailure_lookup_of_none s r m t h, Nat.le_refl 1, rfl⟩
  | some fr => exact ⟨_, upsertFailure_lookup_of_some s r m t fr h, Nat.le_add_left 1 _, rfl⟩

theorem upsertFailure_lookup_ne (s : Store) (r : CSVRow) (m : String) (t : Nat)
    (k : String) (h : k ≠ r.id) :
    lookupA k (upsertFailure s r m t).failed = lookupA k s.failed := by
  unfold upsertFailure
  cases lookupA r.id s.failed <;> exact lookupA_upsertA_ne _ _ _ _ h

theorem wfFailed_upsertFailure (s : Store) (r : CSVRow) (m : String) (t : Nat)
    (h : wfFailed s) : wfFailed (upsertFailure s r m t) := by
  unfold upsertFailure wfFailed
  cases lookupA r.id s.failed <;> exact nodup_upsertA _ _ _ h

/-! ### Per-row processing lemmas -/

theorem processRow_snd (s : Store) (r : CSVRow) (ev : RowEvents) :
    (processRow s r ev).2 = rowSucceeds r ev := by
  rcases ev with ⟨fe, fres, we, de, tt⟩
  cases fe <;> cases fres <;> cases we <;> cases de <;> rfl

theorem processRow_of_succ (s : Store) (r : CSVRow) (ev : RowEvents)
    (h : rowErr r ev = none) :
    ∃ th : List Nat, ev.fetchRes = Except.ok th ∧
      processRow s r ev =
        (⟨upsertA r.id ⟨jsParseInt r.index, th⟩ s.images, eraseA r.id s.failed⟩, true) := by
  rcases ev with ⟨fe, fres, we, de, tt⟩
  cases fe with
  | some m => simp [rowErr] at h
  | none =>
    cases fres with
    | error m => simp [rowErr] at h
    | ok th =>
      cases we with
      | some m => simp [rowErr] at h
      | none =>
        cases de with
        | some m => simp [rowErr] at h
        | none => exact ⟨th, rfl, rfl⟩

theorem processRow_of_fail (s : Store) (r : CSVRow) (ev : RowEvents) (m : String)
    (h : rowErr r ev = some m) :
    ∃ sb : Store, processRow s r ev = (upsertFailure sb r m ev.time, false) ∧
      sb.failed = s.failed ∧
      (∀ k, k ≠ r.id → lookupA k sb.images = lookupA k s.images) ∧
      (ev.deleteErr = none → sb = s) := by
  rcases ev with ⟨fe, fres, we, de, tt⟩
  cases fe with
  | some m' =>
    have hm : m' = m := by simpa [rowErr] using h
    subst hm
    exact ⟨s, rfl, rfl, fun k _ => rfl, fun _ => rfl⟩
  | none =>
    cases fres with
    | error m' =>
      have hm : thumbErrMsg r.id m' = m := by simpa [rowErr] using h
      subst hm
      exact ⟨s, rfl, rfl, fun k _ => rfl, fun _ => rfl⟩
    | ok th =>
      cases we with
      | some m' =>
        have hm : m' = m := by simpa [rowErr] using h
        subst hm
        exact ⟨s, rfl, rfl, fun k _ => rfl, fun _ => rfl⟩
      | none =>
        cases de with
        | some m' =>
          have hm : m' = m := by simpa [rowErr] using h
          subst hm
          refine ⟨⟨upsertA r.id ⟨jsParseInt r.index, th⟩ s.images, s.failed⟩, rfl, rfl, ?_, ?_⟩
          · intro k hk
            exact lookupA_upsertA_ne _ _ _ _ hk
          · intro hde
            cases hde
        | none => simp [rowErr] at h

theorem rowErr_of_evOk (r : CSVRow) (ev : RowEvents) (h : evOk ev = true) :
    rowErr r ev = none := by
  rcases ev with ⟨fe, fres, we, de, tt⟩
  cases fe <;> cases fres <;> cases we <;> cases de <;> simp_all [evOk, rowErr]

theorem wfFailed_processRow (s : Store) (r : CSVRow) (ev : RowEvents)
    (h : wfFailed s) : wfFailed (processRow s r ev).1 := by
  cases he : rowErr r ev with
  | none =>
    obtain ⟨th, _, heq⟩ := processRow_of_succ s r ev he
    rw [heq]
    exact nodup_eraseA _ _ h
  | some m =>
    obtain ⟨sb, heq, hf, _, _⟩ := processRow_of_fail s r ev m he
    rw [heq]
    apply wfFailed_upsertFailure
    unfold wfFailed
    rw [hf]
    exact h

/-! ### Chunk-traversal lemmas -/

theorem processChunk_append (o : Nat → RowEvents) (xs ys : List CSVRow) :
    ∀ (s : Store) (pos : Nat),
      processChunk o s pos (xs ++ ys) =
        ((processChunk o (processChunk o s pos xs).1 (pos + xs.length) ys).1,
          (processChunk o s pos xs).2 +
            (processChunk o (processChunk o s pos xs).1 (pos + xs.length) ys).2) := by
  induction xs with
  | nil => intro s pos; simp [processChunk]
  | cons r rs ih =>
    intro s pos
    simp only [List.cons_append, processChunk, List.length_cons, List.append_eq]
    rw [ih]
    have hpos : pos + 1 + rs.length = pos + (rs.length + 1) := by omega
    rw [hpos, Nat.add_assoc]

theorem processChunk_snd (o : Nat → RowEvents) (rows : List CSVRow) :
    ∀ (s : Store) (pos : Nat), (processChunk o s pos rows).2 = succRowCount o pos rows := by
  induction rows with
  | nil => intro s pos; rfl
  | cons r rs ih =>
    intro s pos
    simp only [processChunk, succRowCount, processRow_snd, ih]

theorem succRowCount_le (o : Nat → RowEvents) (rows : List CSVRow) :
    ∀ pos : Nat, succRowCount o pos rows ≤ rows.length := by
  induction rows with
  | nil => intro pos; simp [succRowCount]
  | cons r rs ih =>
    intro pos
    have := ih (pos + 1)
    simp only [succRowCount, List.length_cons]
    split <;> omega

theorem succRowCount_append (o : Nat → RowEvents) (xs ys : List CSVRow) :
    ∀ pos : Nat,
      succRowCount o pos (xs ++ ys) =
        succRowCount o pos xs + succRowCount o (pos + xs.length) ys := by
  induction xs with
  | nil => intro pos; simp [succRowCount]
  | cons r rs ih =>
    intro pos
    simp only [List.cons_append, succRowCount, List.length_cons, List.append_eq, ih]
    have hpos : pos + 1 + rs.length = pos + (rs.length + 1) := by omega
    rw [hpos, Nat.add_assoc]

theorem processChunk_frame (o : Nat → RowEvents) (rows : List CSVRow) (k : String)
    (h : k ∉ rows.map CSVRow.id) :
    ∀ (s : Store) (pos : Nat),
      lookupA k (processChunk o s pos rows).1.images = lookupA k s.images ∧
      lookupA k (processChunk o s pos rows).1.failed = lookupA k s.failed := by
  induction rows with
  | nil => intro s pos; exact ⟨rfl, rfl⟩
  | cons r rs ih =>
    intro s pos
    simp only [List.map_cons, List.mem_cons] at h
    push_neg at h
    obtain ⟨hk, hks⟩ := h
    have hrow : lookupA k (processRow s r (o pos)).1.images = lookupA k s.images ∧
        lookupA k (processRow s r (o pos)).1.failed = lookupA k s.failed := by
      cases he : rowErr r (o pos) with
      | none =>
        obtain ⟨th, _, heq⟩ := processRow_of_succ s r (o pos) he
        rw [heq]
        exact ⟨lookupA_upsertA_ne _ _ _ _ hk, lookupA_eraseA_ne _ _ _ hk⟩
      | some m =>
        obtain ⟨sb, heq, hf, hi, _⟩ := processRow_of_fail s r (o pos) m he
        rw [heq]
        constructor
        · rw [upsertFailure_images]
          exact hi k hk
        · rw [upsertFailure_lookup_ne _ _ _ _ _ hk, hf]
    have hrest := ih hks (processRow s r (o pos)).1 (pos + 1)
    simp only [processChunk]
    exact ⟨hrest.1.trans hrow.1, hrest.2.trans hrow.2⟩

theorem wfFailed_processChunk (o : Nat → RowEvents) (rows : List CSVRow) :
    ∀ (s : Store) (pos : Nat), wfFailed s → wfFailed (processChunk o s pos rows).1 := by
  induction rows with
  | nil => intro s pos h; exact h
  | cons r rs ih =>
    intro s pos h
    simp only [processChunk]
    exact ih _ _ (wfFailed_processRow s r (o pos) h)

/-! ### Chunking lemmas -/

theorem chunkGo_flatten {α : Type} (n : Nat) (hn : 0 < n) (fuel : Nat) :
    ∀ xs : List α, xs.length ≤ fuel → (chunkGo n fuel xs).flatten = xs := by
  induction fuel with
  | zero =>
    intro xs h
    have hx : xs = [] := List.eq_nil_of_length_eq_zero (Nat.le_zero.1 h)
    subst hx
    simp [chunkGo]
  | succ fuel ih =>
    intro xs h
    cases xs with
    | nil => simp [chunkGo]
    | cons x t =>
      simp only [List.length_cons] at h
      simp only [chunkGo, List.flatten_cons]
      rw [ih ((x :: t).drop n)
        (by simp only [List.length_drop, List.length_cons]; omega)]
      exact List.take_append_drop n (x :: t)

theorem chunkList_flatten {α : Type} (n : Nat) (hn : 0 < n) (xs : List α) :
    (chunkList n xs).flatten = xs := by
  unfold chunkList
  rw [if_neg hn.ne']
  exact chunkGo_flatten n hn xs.length xs le_rfl

theorem chunkGo_mem_le {α : Type} (n fuel : Nat) :
    ∀ (xs : List α) (c : List α), c ∈ chunkGo n fuel xs → c.length ≤ n := by
  induction fuel with
  | zero => intro xs c hc; cases xs <;> simp [chunkGo] at hc
  | succ fuel ih =>
    intro xs c hc
    cases xs with
    | nil => simp [chunkGo] at hc
    | cons x t =>
      simp only [chunkGo, List.mem_cons] at hc
      rcases hc with rfl | hc
      · exact List.length_take_le n (x :: t)
      · exact ih _ c hc

theorem chunkList_mem_le {α : Type} (n : Nat) (xs : List α) (c : List α)
    (hc : c ∈ chunkList n xs) : c.length ≤ n := by
  unfold chunkList at hc
  by_cases hn : n = 0
  · rw [if_pos hn] at hc
    simp at hc
  · rw [if_neg hn] at hc
    exact chunkGo_mem_le n xs.length xs c hc

/-! ### Chunk-loop aggregation lemmas -/

theorem runChunks_store (o : Nat → RowEvents) (T : Nat) (cs : List (List CSVRow)) :
    ∀ (s : Store) (pos b p f : Nat),
      (runChunks o T s pos b p f cs).1 = (processChunk o s pos cs.flatten).1 := by
  induction cs with
  | nil => intro s pos b p f; rfl
  | cons c cs ih =>
    intro s pos b p f
    simp only [runChunks, List.flatten_cons]
    rw [ih, processChunk_append]

theorem runChunks_processed (o : Nat → RowEvents) (T : Nat) (cs : List (List CSVRow)) :
    ∀ (s : Store) (pos b p f : Nat),
      (runChunks o T s pos b p f cs).2.1 = p + succRowCount o pos cs.flatten := by
  induction cs with
  | nil => intro s pos b p f; simp [runChunks, succRowCount]
  | cons c cs ih =>
    intro s pos b p f
    simp only [runChunks, List.flatten_cons]
    rw [ih, processChunk_snd, succRowCount_append, Nat.add_assoc]

theorem runChunks_failed (o : Nat → RowEvents) (T : Nat) (cs : List (List CSVRow)) :
    ∀ (s : Store) (pos b p f : Nat),
      (runChunks o T s pos b p f cs).2.2.1 =
        f + (cs.flatten.length - succRowCount o pos cs.flatten) := by
  induction cs with
  | nil => intro s pos b p f; simp [runChunks, succRowCount]
  | cons c cs ih =>
    intro s pos b p f
    simp only [runChunks, List.flatten_cons]
    rw [ih, processChunk_snd, succRowCount_append, List.length_append]
    have h1 : succRowCount o pos c ≤ c.length := succRowCount_le o c pos
    have h2 : succRowCount o (pos + c.length) cs.flatten ≤ cs.flatten.length :=
      succRowCount_le o cs.flatten (pos + c.length)
    omega

theorem runChunks_progress_length (o : Nat → RowEvents) (T : Nat)
    (cs : List (List CSVRow)) :
    ∀ (s : Store) (pos b p f : Nat),
      (runChunks o T s pos b p f cs).2.2.2.length = cs.length := by
  induction cs with
  | nil => intro s pos b p f; rfl
  | cons c cs ih =>
    intro s pos b p f
    simp only [runChunks, List.length_cons]
    rw [ih]

theorem runChunks_progress_mono (o : Nat → RowEvents) (T : Nat)
    (cs : List (List CSVRow)) :
    ∀ (s : Store) (pos b p f : Nat),
      (∀ q ∈ (runChunks o T s pos b p f cs).2.2.2, p ≤ q.processed ∧ f ≤ q.failed) ∧
        List.Chain' (fun q1 q2 => q1.processed ≤ q2.processed ∧ q1.failed ≤ q2.failed)
          (runChunks o T s pos b p f cs).2.2.2 := by
  induction cs with
  | nil =>
    intro s pos b p f
    exact ⟨by intro q hq; simp [runChunks] at hq, by simp [runChunks]⟩
  | cons c cs ih =>
    intro s pos b p f
    obtain ⟨hb, hc⟩ :=
      ih (processChunk o s pos c).1 (pos + c.length) (b + 1)
        (p + (processChunk o s pos c).2) (f + (c.length - (processChunk o s pos c).2))
    constructor
    · intro q hq
      simp only [runChunks, List.mem_cons] at hq
      rcases hq with rfl | hq
      · exact ⟨Nat.le_add_right p _, Nat.le_add_right f _⟩
      · obtain ⟨h1, h2⟩ := hb q hq
        exact ⟨Nat.le_trans (Nat.le_add_right p _) h1, Nat.le_trans (Nat.le_add_right f _) h2⟩
    · simp only [runChunks]
      cases hps : (runChunks o T (processChunk o s pos c).1 (pos + c.length) (b + 1)
          (p + (processChunk o s pos c).2) (f + (c.length - (processChunk o s pos c).2))
          cs).2.2.2 with
      | nil => simp
      | cons q1 t1 =>
        rw [List.chain'_cons]
        refine ⟨?_, hps ▸ hc⟩
        have hq1 := hb q1 (by rw [hps]; exact List.mem_cons_self q1 t1)
        exact hq1

/-! ### Pass-level lemmas -/

theorem processImages_fst (n : Nat) (o : Nat → RowEvents) (s : Store)
    (rows : List CSVRow) (hn : 0 < n) :
    (processImages n o s rows).1 = (processChunk o s 0 rows).1 := by
  unfold processImages
  rw [runChunks_store, chunkList_flatten n hn]

theorem processImages_result (n : Nat) (o : Nat → RowEvents) (s : Store)
    (rows : List CSVRow) (hn : 0 < n) :
    (processImages n o s rows).2.1 =
      ⟨rows.length, succRowCount o 0 rows, rows.length - succRowCount o 0 rows⟩ := by
  unfold processImages
  dsimp only
  rw [runChunks_processed, runChunks_failed, chunkList_flatten n hn]
  simp

theorem processImages_progress (n : Nat) (o : Nat → RowEvents) (s : Store)
    (rows : List CSVRow) :
    (processImages n o s rows).2.2 =
      (runChunks o (chunkList n rows).length s 0 0 0 0 (chunkList n rows)).2.2.2 := rfl

/-! ### All-success pass lemmas -/

theorem images_lookup_processChunk_ok (o : Nat → RowEvents) (key : String)
    (rows : List CSVRow) :
    ∀ (s : Store) (pos : Nat), (∀ i, i < rows.length → evOk (o (pos + i)) = true) →
      lookupA key (processChunk o s pos rows).1.images =
        (match lastVal o key pos rows with
          | some v => some v
          | none => lookupA key s.images) := by
  induction rows with
  | nil => intro s pos h; rfl
  | cons r rs ih =>
    intro s pos h
    have h0 : evOk (o pos) = true := by simpa using h 0 (Nat.succ_pos _)
    have he : rowErr r (o pos) = none := rowErr_of_evOk r (o pos) h0
    obtain ⟨th, hth, heq⟩ := processRow_of_succ s r (o pos) he
    have hthumb : thumbOf (o pos) = th := by rw [thumbOf, hth]
    have hshift : ∀ i, i < rs.length → evOk (o (pos + 1 + i)) = true := by
      intro i hi
      have := h (i + 1) (by simpa using Nat.succ_lt_succ hi)
      rw [show pos + 1 + i = pos + (i + 1) by omega]
      exact this
    simp only [processChunk, heq]
    rw [ih _ (pos + 1) hshift]
    cases hlv : lastVal o key (pos + 1) rs with
    | some v => simp [lastVal, hlv]
    | none =>
      simp only [lastVal, hlv]
      by_cases hk : r.id = key
      · rw [hk, hthumb]
        simp [lookupA_upsertA_self]
      · rw [if_neg hk]
        exact lookupA_upsertA_ne _ _ _ _ (fun hh => hk hh.symm)

theorem failed_lookup_processChunk_ok_mem (o : Nat → RowEvents) (key : String)
    (rows : List CSVRow) :
    ∀ (s : Store) (pos : Nat), (∀ i, i < rows.length → evOk (o (pos + i)) = true) →
      wfFailed s → key ∈ rows.map CSVRow.id →
      lookupA key (processChunk o s pos rows).1.failed = none := by
  induction rows with
  | nil => intro s pos _ _ hmem; simp at hmem
  | cons r rs ih =>
    intro s pos h hwf hmem
    have h0 : evOk (o pos) = true := by simpa using h 0 (Nat.succ_pos _)
    have he : rowErr r (o pos) = none := rowErr_of_evOk r (o pos) h0
    obtain ⟨th, hth, heq⟩ := processRow_of_succ s r (o pos) he
    have hshift : ∀ i, i < rs.length → evOk (o (pos + 1 + i)) = true := by
      intro i hi
      have := h (i + 1) (by simpa using Nat.succ_lt_succ hi)
      rw [show pos + 1 + i = pos + (i + 1) by omega]
      exact this
    have hwf' : wfFailed (⟨upsertA r.id ⟨jsParseInt r.index, th⟩ s.images,
        eraseA r.id s.failed⟩ : Store) := nodup_eraseA _ _ hwf
    simp only [processChunk, heq]
    by_cases hmem2 : key ∈ rs.map CSVRow.id
    · exact ih _ (pos + 1) hshift hwf' hmem2
    · have hkey : key = r.id := by
        rcases List.mem_cons.1 (by simpa only [List.map_cons] using hmem) with h1 | h1
        · exact h1
        · exact absurd h1 hmem2
      obtain ⟨_, hfr⟩ := processChunk_frame o rs key hmem2 _ (pos + 1)
      rw [hfr]
      subst hkey
      exact lookupA_eraseA_self _ _ hwf

theorem processChunk_failed_unchanged (o : Nat → RowEvents) (rows : List CSVRow) :
    ∀ (s : Store) (pos : Nat), (∀ i, i < rows.length → evOk (o (pos + i)) = true) →
      (∀ r ∈ rows, lookupA r.id s.failed = none) →
      (processChunk o s pos rows).1.failed = s.failed := by
  induction rows with
  | nil => intro s pos _ _; rfl
  | cons r rs ih =>
    intro s pos h hnone
    have h0 : evOk (o pos) = true := by simpa using h 0 (Nat.succ_pos _)
    have he : rowErr r (o pos) = none := rowErr_of_evOk r (o pos) h0
    obtain ⟨th, hth, heq⟩ := processRow_of_succ s r (o pos) he
    have hshift : ∀ i, i < rs.length → evOk (o (pos + 1 + i)) = true := by
      intro i hi
      have := h (i + 1) (by simpa using Nat.succ_lt_succ hi)
      rw [show pos + 1 + i = pos + (i + 1) by omega]
      exact this
    have hfe : eraseA r.id s.failed = s.failed :=
      eraseA_of_lookupA_none _ _ (hnone r (List.mem_cons_self r rs))
    simp only [processChunk, heq, hfe]
    exact ih _ (pos + 1) hshift (fun r' hr' => hnone r' (List.mem_cons_of_mem r hr'))

/-! ### Row-source lemmas -/

theorem validateRow_iff (r : CSVRow) :
    validateRow r = true ↔
      (r.id ≠ "" ∧ r.url ≠ "" ∧ validateUrl r.url = true ∧
        (jsParseInt r.index).isSome = true) := by
  unfold validateRow
  simp only [Bool.and_eq_true, bne_iff_ne, ne_eq]
  constructor
  · rintro ⟨⟨⟨⟨h1, h2⟩, h3⟩, h4⟩, h5⟩
    exact ⟨h1, h2, h5, h4⟩
  · rintro ⟨h1, h2, h5, h4⟩
    refine ⟨⟨⟨⟨h1, h2⟩, ?_⟩, h4⟩, h5⟩
    intro hidx
    rw [hidx] at h4
    exact absurd h4 (by decide)

theorem readCSV_ok_eq (data : String) (out : List CSVRow)
    (h : readCSV data = Except.ok out) :
    out = (csvBodyRows data).filter validateRow := by
  unfold readCSV at h
  split at h
  · cases h
  · dsimp only at h
    split at h
    · cases h
      rfl
    · cases h

/-! ### Claim theorems -/

/-- Claim C10: for the empty input row sequence, `processImages` returns
`{total: 0, processed: 0, failed: 0}`, emits no progress notification, and
leaves the store untouched (the chunk list is empty, so the per-chunk loop
body never runs and no store or fetch operation is consulted — the result is
the same for every oracle). -/
theorem c10_empty_input (n : Nat) (o : Nat → RowEvents) (s : Store) :
    processImages n o s [] = (s, ⟨0, 0, 0⟩, []) := by
  unfold processImages chunkList
  by_cases hn : n = 0
  · rw [if_pos hn]
    rfl
  · rw [if_neg hn]
    rfl

/-- Claim C9 (evidence for the code bug): when `main()` rejects, the wiring
logs the error and exits with status 1, but `processor.cleanup()` never runs
— `process.exit(1)` inside the catch handler terminates the process before
the finally callback can fire, so the store connection is not released, in
contradiction with the claimed behaviour; on a successful pass the cleanup
does run before the clean exit. -/
theorem c9_exit_behaviour :
    topLevel (Except.error "MongoDB connection failed") =
        ⟨[ProcAction.logError "MongoDB connection failed"], some 1⟩ ∧
      ProcAction.cleanup ∉ (topLevel (Except.error "MongoDB connection failed")).trace ∧
      topLevel (Except.ok ⟨0, 0, 0⟩) = ⟨[ProcAction.cleanup], some 0⟩ := by
  refine ⟨rfl, ?_, rfl⟩
  decide

/-- Claim C1: for every input row sequence (and positive configured batch
size), `processImages` returns a result with `total = processed + failed`,
`total` equal to the number of input rows of this pass alone, `processed`
counting exactly the rows whose per-row processing succeeded, and `failed`
counting the rest. -/
theorem c1_result_counts (n : Nat) (o : Nat → RowEvents) (s : Store)
    (rows : List CSVRow) (hn : 0 < n) :
    (processImages n o s rows).2.1.total =
        (processImages n o s rows).2.1.processed + (processImages n o s rows).2.1.failed ∧
      (processImages n o s rows).2.1.total = rows.length ∧
      (processImages n o s rows).2.1.processed = succRowCount o 0 rows ∧
      (processImages n o s rows).2.1.failed = rows.length - succRowCount o 0 rows := by
  rw [processImages_result n o s rows hn]
  have hle := succRowCount_le o rows 0
  refine ⟨?_, rfl, rfl, rfl⟩
  show rows.length = succRowCount o 0 rows + (rows.length - succRowCount o 0 rows)
  omega

/-- Witness for C1 at a concrete two-row input where the first row succeeds
and the second fails. -/
theorem c1_result_counts_witness :
    0 < 1 ∧
      ((processImages 1 mixedOracle emptyStore [rowX, rowY]).2.1.total =
          (processImages 1 mixedOracle emptyStore [rowX, rowY]).2.1.processed +
            (processImages 1 mixedOracle emptyStore [rowX, rowY]).2.1.failed ∧
        (processImages 1 mixedOracle emptyStore [rowX, rowY]).2.1.total =
          ([rowX, rowY] : List CSVRow).length ∧
        (processImages 1 mixedOracle emptyStore [rowX, rowY]).2.1.processed =
          succRowCount mixedOracle 0 [rowX, rowY] ∧
        (processImages 1 mixedOracle emptyStore [rowX, rowY]).2.1.failed =
          ([rowX, rowY] : List CSVRow).length - succRowCount mixedOracle 0 [rowX, rowY]) :=
  ⟨by decide, c1_result_counts 1 mixedOracle emptyStore [rowX, rowY] (by decide)⟩

/-- Claim C4: a per-row failure (whether from the image lookup, the
thumbnail fetch, or a store write during the row's processing) never
propagates out of the chunk loop: the row is recorded in the failure ledger
with at least one attempt and the latest error message, it contributes no
success, and the remaining rows are processed exactly as they would be from
the updated store. -/
theorem c4_row_failure_absorbed (s : Store) (pos : Nat) (o : Nat → RowEvents)
    (r : CSVRow) (rs : List CSVRow) (m : String) (h : rowErr r (o pos) = some m) :
    ∃ s' : Store, processRow s r (o pos) = (s', false) ∧
      processChunk o s pos (r :: rs) = processChunk o s' (pos + 1) rs ∧
      ∃ fr : FailedRecord, lookupA r.id s'.failed = some fr ∧
        1 ≤ fr.attempts ∧ fr.error = m := by
  obtain ⟨sb, heq, hf, _, _⟩ := processRow_of_fail s r (o pos) m h
  refine ⟨upsertFailure sb r m (o pos).time, heq, ?_, upsertFailure_lookup_self sb r m _⟩
  simp [processChunk, heq]

/-- Witness for C4 at a concrete fetch failure in a two-row chunk. -/
theorem c4_row_failure_absorbed_witness :
    rowErr rowX failEv = some (thumbErrMsg "X" "boom") ∧
      ∃ s' : Store, processRow emptyStore rowX failEv = (s', false) ∧
        processChunk (fun _ => failEv) emptyStore 0 [rowX, rowY] =
          processChunk (fun _ => failEv) s' (0 + 1) [rowY] ∧
        ∃ fr : FailedRecord, lookupA rowX.id s'.failed = some fr ∧
          1 ≤ fr.attempts ∧ fr.error = thumbErrMsg "X" "boom" :=
  ⟨by decide, c4_row_failure_absorbed emptyStore 0 (fun _ => failEv) rowX [rowY]
    (thumbErrMsg "X" "boom") (by decide)⟩

/-- Claim C5: the first failure recorded for an id creates a ledger entry
with attempts 1 carrying that failure's error, time, index and url; every
subsequent failure for the same id increments attempts by exactly one while
overwriting error, lastAttempt, index and url with the latest failure's
values; in particular a row failing twice in succession ends at attempts 2
with the second failure's error and lastAttempt. -/
theorem c5_ledger_accumulation (s s' : Store) (r r' : CSVRow) (fr : FailedRecord)
    (m1 m2 m : String) (t1 t2 t : Nat)
    (h : lookupA r.id s.failed = none) (hid : r'.id = r.id)
    (hfr : lookupA r.id s'.failed = some fr) :
    lookupA r.id (upsertFailure s r m1 t1).failed =
        some ⟨jsParseInt r.index, r.url, m1, 1, t1⟩ ∧
      lookupA r.id (upsertFailure (upsertFailure s r m1 t1) r m2 t2).failed =
        some ⟨jsParseInt r.index, r.url, m2, 2, t2⟩ ∧
      lookupA r.id (upsertFailure s' r' m t).failed =
        some ⟨jsParseInt r'.index, r'.url, m, fr.attempts + 1, t⟩ := by
  have h1 := upsertFailure_lookup_of_none s r m1 t1 h
  refine ⟨h1, upsertFailure_lookup_of_some (upsertFailure s r m1 t1) r m2 t2 _ h1, ?_⟩
  have h3 := upsertFailure_lookup_of_some s' r' m t fr (by rw [hid]; exact hfr)
  rw [hid] at h3
  exact h3

/-- Witness for C5: a fresh id failing twice, and an update of an existing
three-attempt record. -/
theorem c5_ledger_accumulation_witness :
    lookupA rowX.id emptyStore.failed = none ∧ rowX.id = rowX.id ∧
      lookupA rowX.id (⟨[], [("X", ⟨some 9, "u", "e0", 4, 3⟩)]⟩ : Store).failed =
        some ⟨some 9, "u", "e0", 4, 3⟩ ∧
      (lookupA rowX.id (upsertFailure emptyStore rowX "e1" 5).failed =
          some ⟨jsParseInt rowX.index, rowX.url, "e1", 1, 5⟩ ∧
        lookupA rowX.id
            (upsertFailure (upsertFailure emptyStore rowX "e1" 5) rowX "e2" 6).failed =
          some ⟨jsParseInt rowX.index, rowX.url, "e2", 2, 6⟩ ∧
        lookupA rowX.id
            (upsertFailure (⟨[], [("X", ⟨some 9, "u", "e0", 4, 3⟩)]⟩ : Store) rowX "e3" 8).failed =
          some ⟨jsParseInt rowX.index, rowX.url, "e3", 4 + 1, 8⟩) :=
  ⟨by decide, rfl, by decide,
    c5_ledger_accumulation emptyStore ⟨[], [("X", ⟨some 9, "u", "e0", 4, 3⟩)]⟩ rowX rowX
      ⟨some 9, "u", "e0", 4, 3⟩ "e1" "e2" "e3" 5 6 8 (by decide) rfl (by decide)⟩

/-- Claim C7: `retryFailed` selects exactly the ledger records with attempts
strictly below `maxAttempts` (so a record at exactly `maxAttempts` is
excluded and never retried automatically), maps each selected record to an
input row `(id, url, index.toString())`, and when the selection is empty
returns `{total: 0, processed: 0, failed: 0}` leaving the store untouched;
otherwise it delegates to `processImages` on the reconstituted rows. -/
theorem c7_retry_selection (maxAttempts n : Nat) (o : Nat → RowEvents) (s : Store)
    (p : String × FailedRecord) (hp : p.2.attempts = maxAttempts) :
    (∀ q : String × FailedRecord,
        q ∈ s.failed.filter (fun q => decide (q.2.attempts < maxAttempts)) ↔
          q ∈ s.failed ∧ q.2.attempts < maxAttempts) ∧
      p ∉ s.failed.filter (fun q => decide (q.2.attempts < maxAttempts)) ∧
      retryFailed maxAttempts n o s =
        (if (s.failed.filter (fun q => decide (q.2.attempts < maxAttempts))).isEmpty then
          (s, ⟨0, 0, 0⟩, [])
        else
          processImages n o s
            ((s.failed.filter (fun q => decide (q.2.attempts < maxAttempts))).map
              (fun q => ⟨q.1, q.2.url, optIntToString q.2.index⟩))) := by
  refine ⟨?_, ?_, rfl⟩
  · intro q
    simp [List.mem_filter]
  · intro hmem
    rw [List.mem_filter] at hmem
    have := of_decide_eq_true hmem.2
    omega

/-- Witness for C7: a store whose only ledger record sits at three attempts,
retried with `maxAttempts = 3` — nothing is selected and the zero result is
returned with the store untouched. -/
theorem c7_retry_selection_witness :
    pZ.2.attempts = 3 ∧
      ((∀ q : String × FailedRecord,
          q ∈ storeAt3.failed.filter (fun q => decide (q.2.attempts < 3)) ↔
            q ∈ storeAt3.failed ∧ q.2.attempts < 3) ∧
        pZ ∉ storeAt3.failed.filter (fun q => decide (q.2.attempts < 3)) ∧
        retryFailed 3 50 okOracle storeAt3 =
          (if (storeAt3.failed.filter (fun q => decide (q.2.attempts < 3))).isEmpty then
            (storeAt3, ⟨0, 0, 0⟩, [])
          else
            processImages 50 okOracle storeAt3
              ((storeAt3.failed.filter (fun q => decide (q.2.attempts < 3))).map
                (fun q => ⟨q.1, q.2.url, optIntToString q.2.index⟩)))) :=
  ⟨by decide, c7_retry_selection 3 50 okOracle storeAt3 pZ (by decide)⟩

/-- Claim C3: for a positive batch size the pass splits the rows into
consecutive chunks of at most `batchSize` (their concatenation in order is
the input), emits exactly one progress notification per chunk, and the
cumulative processed/failed counts carried by the notifications are
monotonically non-decreasing; in particular, for batchSize 2 and five valid
rows exactly three notifications are emitted and the final cumulative counts
sum to 5. -/
theorem c3_chunked_progress (n : Nat) (o : Nat → RowEvents) (s : Store)
    (rows : List CSVRow) (hn : 0 < n) :
    (chunkList n rows).flatten = rows ∧
      (∀ c ∈ chunkList n rows, c.length ≤ n) ∧
      (processImages n o s rows).2.2.length = (chunkList n rows).length ∧
      List.Chain' (fun q1 q2 => q1.processed ≤ q2.processed ∧ q1.failed ≤ q2.failed)
        (processImages n o s rows).2.2 ∧
      ((processImages 2 okOracle emptyStore [rowX, rowX, rowX, rowX, rowX]).2.2.length = 3 ∧
        ∃ q : Progress,
          (processImages 2 okOracle emptyStore
              [rowX, rowX, rowX, rowX, rowX]).2.2.getLast? = some q ∧
            q.processed + q.failed = 5) := by
  refine ⟨chunkList_flatten n hn rows, fun c hc => chunkList_mem_le n rows c hc, ?_, ?_, ?_, ?_⟩
  · rw [processImages_progress]
    exact runChunks_progress_length o (chunkList n rows).length (chunkList n rows) s 0 0 0 0
  · rw [processImages_progress]
    exact (runChunks_progress_mono o (chunkList n rows).length (chunkList n rows) s 0 0 0 0).2
  · decide
  · exact ⟨⟨3, 3, 5, 0⟩, rfl, rfl⟩

/-- Witness for C3 at batch size 2 over five valid rows with an
always-successful oracle. -/
theorem c3_chunked_progress_witness :
    0 < 2 ∧
      ((chunkList 2 [rowX, rowX, rowX, rowX, rowX]).flatten = [rowX, rowX, rowX, rowX, rowX] ∧
        (∀ c ∈ chunkList 2 [rowX, rowX, rowX, rowX, rowX], c.length ≤ 2) ∧
        (processImages 2 okOracle emptyStore [rowX, rowX, rowX, rowX, rowX]).2.2.length =
          (chunkList 2 [rowX, rowX, rowX, rowX, rowX]).length ∧
        List.Chain' (fun q1 q2 => q1.processed ≤ q2.processed ∧ q1.failed ≤ q2.failed)
          (processImages 2 okOracle emptyStore [rowX, rowX, rowX, rowX, rowX]).2.2 ∧
        ((processImages 2 okOracle emptyStore [rowX, rowX, rowX, rowX, rowX]).2.2.length = 3 ∧
          ∃ q : Progress,
            (processImages 2 okOracle emptyStore
                [rowX, rowX, rowX, rowX, rowX]).2.2.getLast? = some q ∧
              q.processed + q.failed = 5)) :=
  ⟨by decide,
    c3_chunked_progress 2 okOracle emptyStore [rowX, rowX, rowX, rowX, rowX] (by decide)⟩

/-- Claim C2, counterexample: the body row `A,http://x,3x` is retained by the
row source — `parseInt("3x", 10)` succeeds with 3 — even though `"3x"` is not
a base-10 integer numeral, so "retained only if index parses as a base-10
integer", read as the whole field being an integer numeral, fails. -/
theorem c2_counterexample :
    readCSV csvData3x = Except.ok [row3x] ∧
      validateRow row3x = true ∧
      isBase10Integer row3x.index = false :=
  ⟨rfl, by decide, by decide⟩

/-- Claim C2 as amended: a body row is retained if and only if its id is
non-empty, its url is non-empty and passes the URL constructor, and its
index has a base-10 integer PREFIX in the sense of JavaScript `parseInt`
(optional sign followed by at least one digit; trailing characters are
ignored); rows failing any check are silently dropped from the `Except.ok`
result rather than reported as errors. -/
theorem c2_retention_amended (data : String) (out : List CSVRow) (r : CSVRow)
    (h : readCSV data = Except.ok out) :
    r ∈ out ↔
      r ∈ csvBodyRows data ∧ r.id ≠ "" ∧ r.url ≠ "" ∧ validateUrl r.url = true ∧
        (jsParseInt r.index).isSome = true := by
  rw [readCSV_ok_eq data out h, List.mem_filter, validateRow_iff]

/-- Witness for C2 (amended) at the concrete CSV input `csvData3x`. -/
theorem c2_retention_amended_witness :
    readCSV csvData3x = Except.ok [row3x] ∧
      (row3x ∈ [row3x] ↔
        row3x ∈ csvBodyRows csvData3x ∧ row3x.id ≠ "" ∧ row3x.url ≠ "" ∧
          validateUrl row3x.url = true ∧ (jsParseInt row3x.index).isSome = true) :=
  ⟨rfl, c2_retention_amended csvData3x [row3x] row3x rfl⟩

/-- Claim C6, counterexample: in a single pass over two valid rows that share
the id "X" — the first succeeds, the second fails its fetch — the final store
has BOTH an images entry for "X" with the row's index AND a failure-ledger
entry for "X" with attempts 1, so "exactly one of the two holds" is false for
that valid input row. -/
theorem c6_counterexample :
    validateRow rowX = true ∧
      (∃ img : ImageRecord, lookupA "X" dupIdStore.images = some img ∧
        img.index = jsParseInt "1") ∧
      (∃ fr : FailedRecord, lookupA "X" dupIdStore.failed = some fr ∧ 1 ≤ fr.attempts) ∧
      ¬ (((∃ img : ImageRecord, lookupA "X" dupIdStore.images = some img ∧
              img.index = jsParseInt "1") ∧
            ¬ (∃ fr : FailedRecord, lookupA "X" dupIdStore.failed = some fr ∧
                1 ≤ fr.attempts)) ∨
          ((∃ fr : FailedRecord, lookupA "X" dupIdStore.failed = some fr ∧
              1 ≤ fr.attempts) ∧
            ¬ (∃ img : ImageRecord, lookupA "X" dupIdStore.images = some img ∧
                img.index = jsParseInt "1"))) := by
  have hA : lookupA "X" dupIdStore.images = some ⟨some 1, [1]⟩ := rfl
  have hB : lookupA "X" dupIdStore.failed =
      some ⟨some 1, "http://x", thumbErrMsg "X" "boom", 1, 7⟩ := rfl
  refine ⟨by decide, ⟨⟨some 1, [1]⟩, hA, rfl⟩, ⟨_, hB, by decide⟩, ?_⟩
  rintro (⟨_, hnB⟩ | ⟨_, hnA⟩)
  · exact hnB ⟨_, hB, by decide⟩
  · exact hnA ⟨⟨some 1, [1]⟩, hA, rfl⟩

/-- Claim C6 as amended: restricted to a valid row whose id occurs exactly
once in the pass, starting from a store with no entry for that id, and whose
ledger delete is not the failing operation, exactly one of the two holds
after the pass: the images collection has an entry with the row's index, or
the failure ledger has an entry with attempts at least 1.  Moreover an id
present in the failure ledger that occurs once and fully succeeds in a later
pass (over a well-formed ledger) is removed from the ledger and present in
images. -/
theorem c6_amended :
    (∀ (n : Nat) (o : Nat → RowEvents) (s : Store) (pre post : List CSVRow) (r : CSVRow),
      0 < n → validateRow r = true →
      r.id ∉ pre.map CSVRow.id → r.id ∉ post.map CSVRow.id →
      lookupA r.id s.images = none → lookupA r.id s.failed = none →
      (o pre.length).deleteErr = none →
      (((∃ img : ImageRecord,
            lookupA r.id (processImages n o s (pre ++ r :: post)).1.images = some img ∧
              img.index = jsParseInt r.index) ∧
          ¬ (∃ fr : FailedRecord,
              lookupA r.id (processImages n o s (pre ++ r :: post)).1.failed = some fr ∧
                1 ≤ fr.attempts)) ∨
        ((∃ fr : FailedRecord,
            lookupA r.id (processImages n o s (pre ++ r :: post)).1.failed = some fr ∧
              1 ≤ fr.attempts) ∧
          ¬ (∃ img : ImageRecord,
              lookupA r.id (processImages n o s (pre ++ r :: post)).1.images = some img ∧
                img.index = jsParseInt r.index)))) ∧
    (∀ (n : Nat) (o : Nat → RowEvents) (s : Store) (pre post : List CSVRow) (r : CSVRow)
        (fr0 : FailedRecord),
      0 < n → wfFailed s →
      r.id ∉ pre.map CSVRow.id → r.id ∉ post.map CSVRow.id →
      lookupA r.id s.failed = some fr0 → evOk (o pre.length) = true →
      lookupA r.id (processImages n o s (pre ++ r :: post)).1.failed = none ∧
        ∃ img : ImageRecord,
          lookupA r.id (processImages n o s (pre ++ r :: post)).1.images = some img) := by
  constructor
  · intro n o s pre post r hn hv hpre hpost himg hfail hde
    rw [processImages_fst n o s _ hn]
    have happ : (processChunk o s 0 (pre ++ r :: post)).1 =
        (processChunk o (processChunk o s 0 pre).1 (0 + pre.length) (r :: post)).1 := by
      rw [processChunk_append]
    rw [happ, Nat.zero_add]
    obtain ⟨hpimg, hpfail⟩ := processChunk_frame o pre r.id hpre s 0
    have himg2 : lookupA r.id (processChunk o s 0 pre).1.images = none := hpimg.trans himg
    have hfail2 : lookupA r.id (processChunk o s 0 pre).1.failed = none := hpfail.trans hfail
    cases he : rowErr r (o pre.length) with
    | none =>
      obtain ⟨th, hth, heq⟩ := processRow_of_succ (processChunk o s 0 pre).1 r (o pre.length) he
      obtain ⟨hfrimg, hfrfail⟩ := processChunk_frame o post r.id hpost
        (⟨upsertA r.id ⟨jsParseInt r.index, th⟩ (processChunk o s 0 pre).1.images,
          eraseA r.id (processChunk o s 0 pre).1.failed⟩ : Store) (pre.length + 1)
      left
      constructor
      · refine ⟨⟨jsParseInt r.index, th⟩, ?_, rfl⟩
        simp only [processChunk, heq]
        rw [hfrimg]
        exact lookupA_upsertA_self _ _ _
      · rintro ⟨fr, hfr, _⟩
        have hnone : lookupA r.id
            (processChunk o (processChunk o s 0 pre).1 pre.length (r :: post)).1.failed =
              none := by
          simp only [processChunk, heq]
          rw [hfrfail, eraseA_of_lookupA_none _ _ hfail2]
          exact hfail2
        rw [hnone] at hfr
        cases hfr
    | some m =>
      obtain ⟨sb, heq, hfb, _, hdel⟩ :=
        processRow_of_fail (processChunk o s 0 pre).1 r (o pre.length) m he
      have hsb : sb = (processChunk o s 0 pre).1 := hdel hde
      subst hsb
      obtain ⟨hfrimg, hfrfail⟩ := processChunk_frame o post r.id hpost
        (upsertFailure (processChunk o s 0 pre).1 r m (o pre.length).time) (pre.length + 1)
      right
      constructor
      · obtain ⟨fr, hfr, hat, _⟩ :=
          upsertFailure_lookup_self (processChunk o s 0 pre).1 r m (o pre.length).time
        refine ⟨fr, ?_, hat⟩
        simp only [processChunk, heq]
        rw [hfrfail]
        exact hfr
      · rintro ⟨img, himgL, _⟩
        have hnone : lookupA r.id
            (processChunk o (processChunk o s 0 pre).1 pre.length (r :: post)).1.images =
              none := by
          simp only [processChunk, heq]
          rw [hfrimg, upsertFailure_images]
          exact himg2
        rw [hnone] at himgL
        cases himgL
  · intro n o s pre post r fr0 hn hwf hpre hpost hfr0 hok
    rw [processImages_fst n o s _ hn]
    have happ : (processChunk o s 0 (pre ++ r :: post)).1 =
        (processChunk o (processChunk o s 0 pre).1 (0 + pre.length) (r :: post)).1 := by
      rw [processChunk_append]
    rw [happ, Nat.zero_add]
    have hwf2 : wfFailed (processChunk o s 0 pre).1 := wfFailed_processChunk o pre s 0 hwf
    have he : rowErr r (o pre.length) = none := rowErr_of_evOk r (o pre.length) hok
    obtain ⟨th, hth, heq⟩ := processRow_of_succ (processChunk o s 0 pre).1 r (o pre.length) he
    obtain ⟨hfrimg, hfrfail⟩ := processChunk_frame o post r.id hpost
      (⟨upsertA r.id ⟨jsParseInt r.index, th⟩ (processChunk o s 0 pre).1.images,
        eraseA r.id (processChunk o s 0 pre).1.failed⟩ : Store) (pre.length + 1)
    constructor
    · simp only [processChunk, heq]
      rw [hfrfail]
      exact lookupA_eraseA_self _ _ hwf2
    · refine ⟨⟨jsParseInt r.index, th⟩, ?_⟩
      simp only [processChunk, heq]
      rw [hfrimg]
      exact lookupA_upsertA_self _ _ _

/-- Witness for C6 (amended): a fresh valid row succeeding in a
single-row pass, and a ledgered id recovering in a later pass. -/
theorem c6_amended_witness :
    validateRow rowY = true ∧
      ((((∃ img : ImageRecord,
            lookupA rowY.id (processImages 1 okOracle emptyStore [rowY]).1.images =
              some img ∧ img.index = jsParseInt rowY.index) ∧
          ¬ (∃ fr : FailedRecord,
              lookupA rowY.id (processImages 1 okOracle emptyStore [rowY]).1.failed =
                some fr ∧ 1 ≤ fr.attempts)) ∨
        ((∃ fr : FailedRecord,
            lookupA rowY.id (processImages 1 okOracle emptyStore [rowY]).1.failed =
              some fr ∧ 1 ≤ fr.attempts) ∧
          ¬ (∃ img : ImageRecord,
              lookupA rowY.id (processImages 1 okOracle emptyStore [rowY]).1.images =
                some img ∧ img.index = jsParseInt rowY.index)))) ∧
      (lookupA rowY.id
          (processImages 1 okOracle
            (⟨[], [("Y", ⟨some 2, "http://y", "e", 1, 3⟩)]⟩ : Store) [rowY]).1.failed = none ∧
        ∃ img : ImageRecord,
          lookupA rowY.id
            (processImages 1 okOracle
              (⟨[], [("Y", ⟨some 2, "http://y", "e", 1, 3⟩)]⟩ : Store) [rowY]).1.images =
            some img) :=
  ⟨by decide,
    c6_amended.1 1 okOracle emptyStore [] [] rowY (by decide) (by decide) (by decide)
      (by decide) rfl rfl rfl,
    c6_amended.2 1 okOracle ⟨[], [("Y", ⟨some 2, "http://y", "e", 1, 3⟩)]⟩ [] [] rowY
      ⟨some 2, "http://y", "e", 1, 3⟩ (by decide) (by unfold wfFailed; decide) (by decide)
      (by decide) (by decide) rfl⟩

/-- Claim C8: running the same pass twice over the same input with the same
external outcomes, where every row succeeds, leaves the images collection
with the same content per id as a single pass and leaves the failure ledger
untouched by the second pass — in particular no attempts counter grows. -/
theorem c8_idempotent_pass (n : Nat) (o : Nat → RowEvents) (s : Store)
    (rows : List CSVRow) (hn : 0 < n) (hwf : wfFailed s)
    (hok : ∀ i, i < rows.length → evOk (o i) = true) :
    (∀ key : String,
        lookupA key (processImages n o (processImages n o s rows).1 rows).1.images =
          lookupA key (processImages n o s rows).1.images) ∧
      (processImages n o (processImages n o s rows).1 rows).1.failed =
        (processImages n o s rows).1.failed := by
  have hok0 : ∀ i, i < rows.length → evOk (o (0 + i)) = true := by
    intro i hi
    rw [Nat.zero_add]
    exact hok i hi
  rw [processImages_fst n o s rows hn, processImages_fst n o _ rows hn]
  constructor
  · intro key
    rw [images_lookup_processChunk_ok o key rows ((processChunk o s 0 rows).1) 0 hok0,
      images_lookup_processChunk_ok o key rows s 0 hok0]
    cases lastVal o key 0 rows <;> rfl
  · have h1none : ∀ rr ∈ rows, lookupA rr.id (processChunk o s 0 rows).1.failed = none := by
      intro rr hr
      exact failed_lookup_processChunk_ok_mem o rr.id rows s 0 hok0 hwf
        (List.mem_map_of_mem CSVRow.id hr)
    exact processChunk_failed_unchanged o rows (processChunk o s 0 rows).1 0 hok0 h1none

/-- Witness for C8: one valid row processed twice from the empty store under
an always-successful oracle. -/
theorem c8_idempotent_pass_witness :
    0 < 1 ∧ wfFailed emptyStore ∧
      (lookupA "X"
          (processImages 1 okOracle (processImages 1 okOracle emptyStore [rowX]).1
            [rowX]).1.images =
        lookupA "X" (processImages 1 okOracle emptyStore [rowX]).1.images) ∧
      (processImages 1 okOracle (processImages 1 okOracle emptyStore [rowX]).1
          [rowX]).1.failed =
        (processImages 1 okOracle emptyStore [rowX]).1.failed :=
  ⟨by decide, by unfold wfFailed; decide,
    (c8_idempotent_pass 1 okOracle emptyStore [rowX] (by decide) (by unfold wfFailed; decide)
      (fun _ _ => rfl)).1 "X",
    (c8_idempotent_pass 1 okOracle emptyStore [rowX] (by decide) (by unfold wfFailed; decide)
      (fun _ _ => rfl)).2⟩
